import Mathlib

/-!
Shallow embedding of the ATTPC event-classification repository:
the image-generation pipeline (`data-processing/generate_images.py`) and the
data loader utilities (`utils/data.py`).

Modelling conventions:
* Python floats are modelled as real numbers (`ℝ`) in the image pipeline and
  as rationals (`ℚ`) in the loader, where every claim is structural.
* A point-cloud row `(x, y, z, charge)` is a `Point`; an event (`xyzs` array)
  is a `List Point`; a labelled event `[xyzs, label]` is an `Event × ℤ`.
* External collaborators are parameters: the HDF5/CSV readers supply the event
  lists, `random.shuffle` is a permutation-producing function parameter,
  `dd.add_noise` is a function parameter, and the contents of the
  uninitialised `np.empty([1, 4])` buffer are a `junkFill` parameter.
* Fallible numpy operations — `np.vectorize` with `otypes` unset (as in
  `np.vectorize(_l)` here) raises `ValueError` on any size-0 input, and
  `.max()` raises when reducing an empty array — and the `ValueError` raised
  for an invalid projection become `Except PipelineError`; the order of the
  `Except` binds mirrors the order of the Python statements.
* Python's dynamically typed `==` between the projection argument and the
  constants `'zy'`, `'xy'`, `1`, `0` is modelled by `PyVal`/`pyEq`:
  comparisons between values of different runtime types are `false`, exactly
  as in Python.
* The matplotlib rasterisation backend is out of scope (spec §1); a rendered
  image is modelled as the `Plot` handed to the backend: the horizontal,
  vertical and colour arrays passed to `plt.scatter` plus the axis limits.
-/

namespace ATTPC

/-- One row of an event's point cloud: spatial coordinates and charge.
Columns 0, 1, 2, 3 of the numpy `xyzs` array are `x`, `y`, `z`, `q`. -/
structure Point where
  x : ℝ
  y : ℝ
  z : ℝ
  q : ℝ

/-- An event: a variable-length point cloud (the `xyzs` array). -/
abbrev Event := List Point

/-- A labelled event `[xyzs, label]`: 0 proton, 1 carbon, 2 junk, -1 unlabeled. -/
abbrev LabeledEvent := Event × ℤ

/-- The ways a pipeline run can abort. -/
inductive PipelineError where
  /-- `ValueError('Invalid projection value.')` from the render loops. -/
  | invalidProjection
  /-- numpy `ValueError` from reducing (`.max()`) an empty array. -/
  | normalizationUndefined
  /-- numpy `ValueError` from calling `np.vectorize(_l)` (with `otypes`
  unset) on a size-0 charge column, i.e. on a zero-point event. -/
  | logUndefined
  /-- `click.Choice` rejecting a positional argument before `main` runs. -/
  | usageError
deriving DecidableEq

/-- A dynamically typed Python value, as far as the projection argument is
concerned: either a string or an integer. -/
inductive PyVal where
  | str (s : String)
  | int (n : ℤ)

/-- Python `==` on `PyVal`: values of different runtime types are unequal. -/
def pyEq : PyVal → PyVal → Bool
  | .str a, .str b => a == b
  | .int a, .int b => a == b
  | _, _ => false

noncomputable section

/-- The charge transform `_l` of `generate_images.py`:
`return 0 if a == 0 else math.log10(a)`. -/
def _l (a : ℝ) : ℝ := if a = 0 then 0 else Real.logb 10 a

/-- One event's log stage: `event[0][:, 3] = log(event[0][:, 3])` with
`log = np.vectorize(_l)`, i.e. `_l` applied element-wise to the charge
column.  `np.vectorize` with `otypes` unset raises `ValueError` on a size-0
input (it samples the first element to infer the output type), so a
zero-point event errors here. -/
def logEvent (e : Event) : Except PipelineError Event :=
  match e with
  | [] => .error .logUndefined
  | ps => .ok (ps.map fun p => { p with q := _l p.q })

/-- The log loop applied to every event of the collection, as done
identically in `real_labeled`, `real_unlabeled` and `simulated`; it raises
at the first zero-point event, before shuffle, split or normalisation. -/
def logData (d : List LabeledEvent) : Except PipelineError (List LabeledEvent) :=
  d.mapM fun le => (logEvent le.1).map fun e => (e, le.2)

/-- The split index `partition = int(len(data) * 0.8)` (Python `int`
truncation of `0.8 * n`, which for natural `n` is `⌊4n/5⌋`). -/
def partitionIdx (n : ℕ) : ℕ := 4 * n / 5

/-- The train/test split: `train = data[:partition]`, `test = data[partition:]`. -/
def splitData (d : List LabeledEvent) : List LabeledEvent × List LabeledEvent :=
  (d.take (partitionIdx d.length), d.drop (partitionIdx d.length))

/-- Per-event charge maximum `x[0][:, 3].max()`: numpy raises on an empty
array, modelled by `none`. -/
def eventMax : Event → Option ℝ
  | [] => none
  | p :: ps => some ((ps.map Point.q).foldl max p.q)

/-- `np.array(list(map(lambda x: x[0][:, 3].max(), events))).max()`: the
maximum of the per-event maxima; `none` when some event is empty or the
collection itself is empty (both raise in numpy). -/
def maxChargeOf (events : List LabeledEvent) : Option ℝ :=
  (events.mapM fun le => eventMax le.1).bind fun ms =>
    match ms with
    | [] => none
    | m :: rest => some (rest.foldl max m)

/-- Division of every point's charge by the scale:
`for point in e[0]: point[3] = point[3] / max_charge`. -/
def divCharges (mc : ℝ) (e : Event) : Event :=
  e.map fun p => { p with q := p.q / mc }

/-- The normalisation block of `real_labeled` / `simulated` (lines 81-89 and
305-313): the scale is computed from the train partition only, then applied
verbatim to both partitions. -/
def normalizePartitions (train test : List LabeledEvent) :
    Except PipelineError (List LabeledEvent × List LabeledEvent × ℝ) :=
  match maxChargeOf train with
  | none => .error .normalizationUndefined
  | some mc =>
      .ok (train.map (fun le => (divCharges mc le.1, le.2)),
           test.map (fun le => (divCharges mc le.1, le.2)), mc)

/-- What one iteration of a render loop hands to the (external) matplotlib
backend: the horizontal, vertical and colour arrays given to `plt.scatter`,
and the `xlim`/`ylim` axis ranges. -/
structure Plot where
  hs : List ℝ
  vs : List ℝ
  cs : List ℝ
  xlim : ℝ × ℝ
  ylim : ℝ × ℝ

/-- One iteration of the render loops of `real_labeled` / `real_unlabeled`:
the projection is compared (as a Python value) against the strings `'zy'`
and `'xy'`; `'zy'` plots (z, y) with `xlim (0, 1250)`, `'xy'` plots (x, y)
with `xlim (-275, 275)`; `ylim` is always `(-275, 275)`; any other value
raises `ValueError`.  The column selection and the `xlim` selection are two
`if/elif` chains over the same projection value in the source and are merged
here branch-by-branch. -/
def renderEvent (projection : PyVal) (e : Event) : Except PipelineError Plot :=
  if pyEq projection (PyVal.str ("zy")) then
    .ok { hs := e.map Point.z, vs := e.map Point.y, cs := e.map Point.q,
          xlim := (0, 1250), ylim := (-275, 275) }
  else if pyEq projection (PyVal.str ("xy")) then
    .ok { hs := e.map Point.x, vs := e.map Point.y, cs := e.map Point.q,
          xlim := (-275, 275), ylim := (-275, 275) }
  else .error .invalidProjection

/-- One iteration of the render loops of `simulated`: identical to
`renderEvent` except that the projection is compared against the integers
`1` and `0` (source lines 321-335 and 352-366). -/
def renderEventSim (projection : PyVal) (e : Event) : Except PipelineError Plot :=
  if pyEq projection (PyVal.int 1) then
    .ok { hs := e.map Point.z, vs := e.map Point.y, cs := e.map Point.q,
          xlim := (0, 1250), ylim := (-275, 275) }
  else if pyEq projection (PyVal.int 0) then
    .ok { hs := e.map Point.x, vs := e.map Point.y, cs := e.map Point.q,
          xlim := (-275, 275), ylim := (-275, 275) }
  else .error .invalidProjection

/-- The labelled-mode output container (`<save_path>/<name>images.h5`). -/
structure LabeledOutput where
  train_features : List Plot
  train_targets : List ℤ
  test_features : List Plot
  test_targets : List ℤ
  max_charge : ℝ

/-- The unlabelled-mode output container. -/
structure UnlabeledOutput where
  images : List Plot
  max_charge : ℝ

/-- `real_labeled`: the labelled events (already read and labelled from the
run files and label CSVs) are log-transformed, shuffled twice, split 80/20,
normalised by the train maximum, and rendered partition by partition. -/
def real_labeled (projection : PyVal)
    (sh1 sh2 : List LabeledEvent → List LabeledEvent)
    (data : List LabeledEvent) : Except PipelineError LabeledOutput :=
  match logData data with
  | .error e => .error e
  | .ok logged =>
  let shuffled := sh2 (sh1 logged)
  let train := (splitData shuffled).1
  let test := (splitData shuffled).2
  match normalizePartitions train test with
  | .error e => .error e
  | .ok (trainN, testN, mc) => do
      let trainFeatures ← trainN.mapM fun le => renderEvent projection le.1
      let testFeatures ← testN.mapM fun le => renderEvent projection le.1
      pure { train_features := trainFeatures,
             train_targets := trainN.map Prod.snd,
             test_features := testFeatures,
             test_targets := testN.map Prod.snd,
             max_charge := mc }

/-- `real_unlabeled`: every event is labelled -1, log-transformed, shuffled
twice, normalised by the maximum over the whole (unsplit) collection, and
rendered. -/
def real_unlabeled (projection : PyVal)
    (sh1 sh2 : List LabeledEvent → List LabeledEvent)
    (events : List Event) : Except PipelineError UnlabeledOutput :=
  match logData (events.map fun e => (e, (-1 : ℤ))) with
  | .error e => .error e
  | .ok logged =>
  let shuffled := sh2 (sh1 logged)
  match maxChargeOf shuffled with
  | none => .error .normalizationUndefined
  | some mc =>
      let dataN := shuffled.map fun le => (divCharges mc le.1, le.2)
      (dataN.mapM fun le => renderEvent projection le.1).map
        fun images => { images := images, max_charge := mc }

/-- The data-construction stage of `simulated`: protons labelled 0, then
carbons labelled 1, then `num_events` junk events, each the single-point
content of an uninitialised `np.empty([1, 4])` buffer (modelled by
`junkFill`), labelled 2.  With `noise` on, every cloud passes through the
external `dd.add_noise` first. -/
def simBuildData (noise : Bool) (protons carbons : List Event)
    (addNoise : Event → Event) (junkFill : ℕ → Point) (numEvents : ℕ) :
    List LabeledEvent :=
  protons.map (fun e => ((if noise then addNoise e else e), (0 : ℤ)))
    ++ carbons.map (fun e => ((if noise then addNoise e else e), (1 : ℤ)))
    ++ (List.range numEvents).map fun i =>
        ((if noise then addNoise [junkFill i] else [junkFill i]), (2 : ℤ))

/-- `simulated`: build the data, log-transform, shuffle once, split 80/20,
normalise by the train maximum, render with the integer-comparing render
loop. -/
def simulated (projection : PyVal) (noise : Bool) (numEvents : ℕ)
    (protons carbons : List Event) (addNoise : Event → Event)
    (junkFill : ℕ → Point) (sh : List LabeledEvent → List LabeledEvent) :
    Except PipelineError LabeledOutput :=
  match logData (simBuildData noise protons carbons addNoise junkFill numEvents) with
  | .error e => .error e
  | .ok logged =>
  let shuffled := sh logged
  let train := (splitData shuffled).1
  let test := (splitData shuffled).2
  match normalizePartitions train test with
  | .error e => .error e
  | .ok (trainN, testN, mc) => do
      let trainFeatures ← trainN.mapM fun le => renderEventSim projection le.1
      let testFeatures ← testN.mapM fun le => renderEventSim projection le.1
      pure { train_features := trainFeatures,
             train_targets := trainN.map Prod.snd,
             test_features := testFeatures,
             test_targets := testN.map Prod.snd,
             max_charge := mc }

/-- The CLI entry point `main`: `click.Choice` validates the positional
`type` and `projection` arguments (rejecting anything outside
`{'real','sim'}` and `{'xy','zy'}` before any processing), then dispatches;
the accepted projection string is passed verbatim to the mode functions. -/
def mainCli (type_ projection : String) (labeled noise : Bool) (numEvents : ℕ)
    (labeledData : List LabeledEvent) (unlabeledEvents : List Event)
    (protons carbons : List Event) (addNoise : Event → Event)
    (junkFill : ℕ → Point) (sh1 sh2 : List LabeledEvent → List LabeledEvent) :
    Except PipelineError (LabeledOutput ⊕ UnlabeledOutput) :=
  if type_ = ("real") ∨ type_ = ("sim") then
    if projection = ("xy") ∨ projection = ("zy") then
      if type_ = ("real") then
        if labeled then (real_labeled (.str projection) sh1 sh2 labeledData).map .inl
        else (real_unlabeled (.str projection) sh1 sh2 unlabeledEvents).map .inr
      else
        (simulated (.str projection) noise numEvents protons carbons addNoise
          junkFill sh1).map .inl
    else .error .usageError
  else .error .usageError

end

/-! ## The loader (`utils/data.py`), modelled over `ℚ`/`ℕ`. -/

/-- `CLASS_NAMES = ['proton', 'carbon', 'junk']`. -/
def CLASS_NAMES : List String := ["proton", "carbon", "junk"]

/-- `decode_predictions`: pair each probability with its class name, sort by
probability descending (Python's `list.sort` with `reverse=True` is a stable
sort; a stable sort with respect to a total preorder is unique as a
function, and `List.insertionSort` is stable, so it is the same function),
clamp `top` to the list length and return that prefix.  Indexing
`CLASS_NAMES[i]` raises for predictions longer than the name table,
modelled by `none`. -/
def decode_predictions (preds : List ℚ) (top : ℕ) : Option (List (String × ℚ)) :=
  if preds.length ≤ CLASS_NAMES.length then
    let decoded := preds.enum.map fun ip => (CLASS_NAMES.getD ip.1 (""), ip.2)
    let sorted := decoded.insertionSort fun a b => b.2 ≤ a.2
    some (sorted.take (min top decoded.length))
  else none

/-- A stored image; the rasterised pixel buffer contents (shape metadata such
as 128x128x3 versus flattened is not tracked). -/
abbrev Image := List ℕ

/-- The labelled container written by `generate_images.py`. -/
structure H5Labeled where
  train_features : List Image
  train_targets : List ℕ
  test_features : List Image
  test_targets : List ℕ
  max_charge : ℚ
deriving DecidableEq

/-- A container file: either the unlabelled shape (an `images` field) or the
labelled shape. -/
inductive H5File where
  | unlabeledFile (images : List Image)
  | labeledFile (d : H5Labeled)
deriving DecidableEq

/-- Loaded targets: raw integer labels, or one-hot rows after
`to_categorical`. -/
inductive Targets where
  | ints (ts : List ℕ)
  | onehot (ts : List (List ℕ))
deriving DecidableEq

/-- What `load_image_h5` returns for a labelled container. -/
structure LoadedLabeled where
  train_features : List Image
  train_targets : Targets
  test_features : List Image
  test_targets : Targets
  max_charge : Option ℚ
deriving DecidableEq

/-- The loader's overall result. -/
inductive LoadOutput where
  | imagesOnly (images : List Image)
  | dataset (d : LoadedLabeled)
deriving DecidableEq

/-- Keras `to_categorical(ts, numClasses)`: each label becomes a one-hot row
of length `numClasses`; a label outside `[0, numClasses)` raises an
`IndexError`, modelled by `none`. -/
def to_categorical (ts : List ℕ) (numClasses : ℕ) : Option (List (List ℕ)) :=
  if ts.all fun t => t < numClasses then
    some (ts.map fun t => (List.range numClasses).map fun j => if j = t then 1 else 0)
  else none

/-- The in-place binary collapse of `load_image_h5`:
`if targets[i] != 0: targets[i] = 1`. -/
def binaryCollapse (ts : List ℕ) : List ℕ :=
  ts.map fun t => if t ≠ 0 then 1 else t

/-- `load_image_h5`: short-circuits on the unlabelled shape; otherwise counts
the distinct train labels (`np.unique(train_targets).shape[0]`), applies the
binary collapse (which also forces `num_categories = 2`), optionally one-hot
encodes both target arrays, and returns the arrays together with the stored
`max_charge` when requested.  The `flatten` flag only reshapes the feature
arrays (metadata the embedding does not track). -/
def load_image_h5 (h5 : H5File) (categorical flatten maxCharge binary : Bool) :
    Option LoadOutput :=
  match h5 with
  | .unlabeledFile images => some (.imagesOnly images)
  | .labeledFile d =>
      let numCat0 := d.train_targets.dedup.length
      let trainT := if binary then binaryCollapse d.train_targets else d.train_targets
      let testT := if binary then binaryCollapse d.test_targets else d.test_targets
      let numCat := if binary then 2 else numCat0
      let mc : Option ℚ := if maxCharge then some d.max_charge else none
      if categorical then
        match to_categorical trainT numCat, to_categorical testT numCat with
        | some tr, some te =>
            some (.dataset { train_features := d.train_features,
                             train_targets := .onehot tr,
                             test_features := d.test_features,
                             test_targets := .onehot te,
                             max_charge := mc })
        | _, _ => none
      else
        some (.dataset { train_features := d.train_features,
                         train_targets := .ints trainT,
                         test_features := d.test_features,
                         test_targets := .ints testT,
                         max_charge := mc })

end ATTPC

namespace ATTPC

/-! ## Helper lemmas about maxima and `mapM` over `Option` -/

/-- Every element of `q :: qs` is bounded by the left fold of `max`. -/
theorem le_foldl_max (qs : List ℝ) : ∀ q r : ℝ, r ∈ q :: qs → r ≤ qs.foldl max q := by
  induction qs with
  | nil =>
      intro q r h
      simp at h
      simp [h]
  | cons a qs ih =>
      intro q r h
      simp only [List.foldl_cons]
      rcases List.mem_cons.mp h with h2 | h2
      · subst h2
        exact le_trans (le_max_left _ _) (ih _ _ (List.mem_cons_self _ _))
      · rcases List.mem_cons.mp h2 with h3 | h3
        · subst h3
          exact le_trans (le_max_right _ _) (ih _ _ (List.mem_cons_self _ _))
        · exact ih _ r (List.mem_cons_of_mem _ h3)

/-- The left fold of `max` is attained by some element of `q :: qs`. -/
theorem foldl_max_mem (qs : List ℝ) : ∀ q : ℝ, qs.foldl max q ∈ q :: qs := by
  induction qs with
  | nil => intro q; simp
  | cons a qs ih =>
      intro q
      simp only [List.foldl_cons]
      rcases List.mem_cons.mp (ih (max q a)) with h2 | h2
      · rcases max_choice q a with h3 | h3 <;> rw [h3] at h2 ⊢ <;> simp [h2]
      · exact List.mem_cons_of_mem _ (List.mem_cons_of_mem _ h2)

/-- `eventMax` bounds every charge of the event. -/
theorem eventMax_le {e : Event} {m : ℝ} (h : eventMax e = some m) :
    ∀ p ∈ e, p.q ≤ m := by
  intro p hp
  cases e with
  | nil => simp at hp
  | cons p0 ps =>
      have hm := Option.some.inj h
      rcases List.mem_cons.mp hp with h2 | h2
      · exact hm ▸ h2 ▸ le_foldl_max _ _ _ (List.mem_cons_self _ _)
      · exact hm ▸ le_foldl_max _ _ _ (List.mem_cons_of_mem _ (List.mem_map_of_mem _ h2))

/-- `eventMax` is attained by some point of the event. -/
theorem eventMax_mem {e : Event} {m : ℝ} (h : eventMax e = some m) :
    ∃ p ∈ e, p.q = m := by
  cases e with
  | nil => simp [eventMax] at h
  | cons p0 ps =>
      have hm := Option.some.inj h
      rcases List.mem_cons.mp (hm ▸ foldl_max_mem (ps.map Point.q) p0.q) with h2 | h2
      · exact ⟨p0, List.mem_cons_self _ _, h2.symm⟩
      · obtain ⟨p, hp, hq⟩ := List.mem_map.mp h2
        exact ⟨p, List.mem_cons_of_mem _ hp, hq⟩

/-- `mapM` over `Option` fails as soon as one element fails. -/
theorem mapM_option_none {α β : Type} (f : α → Option β) :
    ∀ l : List α, (∃ a ∈ l, f a = none) → l.mapM f = none := by
  intro l
  induction l with
  | nil => intro h; simp at h
  | cons a l ih =>
      intro h
      rw [List.mapM_cons]
      rcases h with ⟨b, hb, hfb⟩
      rcases List.mem_cons.mp hb with h2 | h2
      · subst h2
        rw [hfb]
        rfl
      · cases hfa : f a with
        | none => rfl
        | some v =>
            have hl := ih ⟨b, h2, hfb⟩
            rw [hl]
            rfl

/-- If `mapM` over `Option` succeeds, every input element succeeds and its
image is in the output list. -/
theorem mapM_option_forall {α β : Type} (f : α → Option β) :
    ∀ (l : List α) (ms : List β), l.mapM f = some ms →
      ∀ a ∈ l, ∃ b ∈ ms, f a = some b := by
  intro l
  induction l with
  | nil => intro ms h a ha; simp at ha
  | cons a l ih =>
      intro ms h a' ha'
      rw [List.mapM_cons] at h
      cases hfa : f a with
      | none => rw [hfa] at h; simp at h
      | some v =>
          rw [hfa] at h
          cases hml : l.mapM f with
          | none => rw [hml] at h; simp at h
          | some vs =>
              rw [hml] at h
              simp only [Option.bind_eq_bind, Option.some_bind, Option.pure_def,
                Option.some.injEq] at h
              subst h
              rcases List.mem_cons.mp ha' with h2 | h2
              · exact ⟨v, List.mem_cons_self _ _, h2 ▸ hfa⟩
              · obtain ⟨b, hb, hfb⟩ := ih vs hml a' h2
                exact ⟨b, List.mem_cons_of_mem _ hb, hfb⟩

/-- If `mapM` over `Option` succeeds, every output element is the image of
some input element. -/
theorem mapM_option_exists {α β : Type} (f : α → Option β) :
    ∀ (l : List α) (ms : List β), l.mapM f = some ms →
      ∀ b ∈ ms, ∃ a ∈ l, f a = some b := by
  intro l
  induction l with
  | nil =>
      intro ms h b hb
      simp only [List.mapM_nil, Option.pure_def, Option.some.injEq] at h
      subst h
      simp at hb
  | cons a l ih =>
      intro ms h b hb
      rw [List.mapM_cons] at h
      cases hfa : f a with
      | none => rw [hfa] at h; simp at h
      | some v =>
          rw [hfa] at h
          cases hml : l.mapM f with
          | none => rw [hml] at h; simp at h
          | some vs =>
              rw [hml] at h
              simp only [Option.bind_eq_bind, Option.some_bind, Option.pure_def,
                Option.some.injEq] at h
              subst h
              rcases List.mem_cons.mp hb with h2 | h2
              · exact ⟨a, List.mem_cons_self _ _, h2 ▸ hfa⟩
              · obtain ⟨a', ha', hfa'⟩ := ih vs hml b h2
                exact ⟨a', List.mem_cons_of_mem _ ha', hfa'⟩

/-- The collection maximum bounds every point's charge in every event. -/
theorem maxChargeOf_le {evs : List LabeledEvent} {mc : ℝ}
    (h : maxChargeOf evs = some mc) : ∀ le ∈ evs, ∀ p ∈ le.1, p.q ≤ mc := by
  intro le hle p hp
  unfold maxChargeOf at h
  cases hm : evs.mapM (fun le => eventMax le.1) with
  | none => rw [hm] at h; simp at h
  | some ms =>
      rw [hm] at h
      cases ms with
      | nil => simp at h
      | cons m rest =>
          simp only [Option.some_bind] at h
          have hmc := Option.some.inj h
          obtain ⟨b, hb, hfb⟩ := mapM_option_forall _ evs (m :: rest) hm le hle
          exact le_trans (eventMax_le hfb p hp) (hmc ▸ le_foldl_max rest m b hb)

/-- The collection maximum is attained by some point of some event. -/
theorem maxChargeOf_mem {evs : List LabeledEvent} {mc : ℝ}
    (h : maxChargeOf evs = some mc) : ∃ le ∈ evs, ∃ p ∈ le.1, p.q = mc := by
  unfold maxChargeOf at h
  cases hm : evs.mapM (fun le => eventMax le.1) with
  | none => rw [hm] at h; simp at h
  | some ms =>
      rw [hm] at h
      cases ms with
      | nil => simp at h
      | cons m rest =>
          simp only [Option.some_bind] at h
          have hmc := Option.some.inj h
          have hmem := hmc ▸ foldl_max_mem rest m
          obtain ⟨le, hle, hfle⟩ := mapM_option_exists _ evs (m :: rest) hm mc hmem
          obtain ⟨p, hp, hq⟩ := eventMax_mem hfle
          exact ⟨le, hle, p, hp, hq⟩

/-- An empty event anywhere in the collection makes the scale undefined. -/
theorem maxChargeOf_none {evs : List LabeledEvent}
    (h : ∃ le ∈ evs, le.1 = []) : maxChargeOf evs = none := by
  obtain ⟨le, hle, hemp⟩ := h
  have hmap : evs.mapM (fun le => eventMax le.1) = none :=
    mapM_option_none _ evs ⟨le, hle, by rw [hemp]; rfl⟩
  unfold maxChargeOf
  rw [hmap]
  rfl

/-- The scale of an empty collection is undefined. -/
theorem maxChargeOf_nil : maxChargeOf [] = none := rfl

/-- The only error `logEvent` ever produces is the vectorize size-0 one. -/
theorem logEvent_error {e : Event} {err : PipelineError}
    (h : logEvent e = .error err) : err = .logUndefined := by
  cases e with
  | nil => exact (Except.error.inj h).symm
  | cons p ps => simp [logEvent] at h

/-- The log loop raises the vectorize size-0 error as soon as the collection
contains a zero-point event (before shuffle, split or normalisation). -/
theorem logData_error {d : List LabeledEvent}
    (h : ∃ le ∈ d, le.1 = []) : logData d = .error .logUndefined := by
  induction d with
  | nil => simp at h
  | cons a d ih =>
      unfold logData
      rw [List.mapM_cons]
      obtain ⟨le, hle, hemp⟩ := h
      rcases List.mem_cons.mp hle with h2 | h2
      · subst h2
        rw [hemp]
        rfl
      · cases hfa : logEvent a.1 with
        | error err =>
            have herr := logEvent_error hfa
            subst herr
            rfl
        | ok v =>
            have hd : logData d = .error .logUndefined := ih ⟨le, h2, hemp⟩
            unfold logData at hd
            rw [hd]
            rfl

end ATTPC

namespace ATTPC

/-! ## Claim theorems -/

/-- C1: in the real ingestion modes the string selector behaves as
specified: `'zy'` renders (z, y) with horizontal range [0, 1250], `'xy'`
renders (x, y) with horizontal range [-275, 275], and the vertical range is
always [-275, 275].  In simulated mode, the same selector strings (forwarded
verbatim by `main`) are compared against the integers 1 and 0, so every
event raises `ValueError` instead of selecting a projection. -/
theorem projection_selection :
    (∀ e : Event, renderEvent (.str ("zy")) e
      = .ok { hs := e.map Point.z, vs := e.map Point.y, cs := e.map Point.q,
              xlim := (0, 1250), ylim := (-275, 275) }) ∧
    (∀ e : Event, renderEvent (.str ("xy")) e
      = .ok { hs := e.map Point.x, vs := e.map Point.y, cs := e.map Point.q,
              xlim := (-275, 275), ylim := (-275, 275) }) ∧
    (∀ e : Event, renderEventSim (.str ("zy")) e = .error .invalidProjection) ∧
    (∀ e : Event, renderEventSim (.str ("xy")) e = .error .invalidProjection) :=
  ⟨fun _ => rfl, fun _ => rfl, fun _ => rfl, fun _ => rfl⟩

/-- C4: the charge transform maps 0 to 0 and every a > 0 to log10(a), is
monotone non-decreasing on the positives, and the log stage shared by all
three ingestion modes (`logData`, built on `logEvent`) applies it
element-wise to the charge channel only, leaving coordinates unchanged;
on a zero-point event the vectorized application raises instead (size-0
input with `otypes` unset). -/
theorem charge_transform_contract :
    _l 0 = 0 ∧
    (∀ a : ℝ, 0 < a → _l a = Real.logb 10 a) ∧
    (∀ a b : ℝ, 0 < a → a ≤ b → _l a ≤ _l b) ∧
    logEvent [] = .error .logUndefined ∧
    (∀ e : Event, e ≠ [] → logEvent e
      = .ok (e.map fun p => { x := p.x, y := p.y, z := p.z, q := _l p.q })) ∧
    (∀ d : List LabeledEvent,
      logData d = d.mapM fun le => (logEvent le.1).map fun e => (e, le.2)) := by
  refine ⟨by simp [_l], fun a ha => ?_, fun a b ha hab => ?_, rfl, ?_, fun d => rfl⟩
  · simp [_l, ne_of_gt ha]
  · have hb : (0 : ℝ) < b := lt_of_lt_of_le ha hab
    simp only [_l, if_neg (ne_of_gt ha), if_neg (ne_of_gt hb)]
    exact Real.logb_le_logb_of_le (by norm_num) ha hab
  · intro e he
    cases e with
    | nil => exact absurd rfl he
    | cons p ps => rfl

/-- Witness for C4 at the concrete inputs 0 and 10, the ordered pair
(1, 10), and a concrete one-point event. -/
theorem charge_transform_contract_witness :
    _l 0 = 0 ∧ _l 10 = Real.logb 10 10 ∧ _l 1 ≤ _l 10 ∧
    logEvent [{ x := 0, y := 0, z := 0, q := 10 }]
      = .ok [{ x := 0, y := 0, z := 0, q := _l 10 }] :=
  ⟨charge_transform_contract.1,
   charge_transform_contract.2.1 10 (by norm_num),
   charge_transform_contract.2.2.1 1 10 (by norm_num) (by norm_num),
   charge_transform_contract.2.2.2.2.1 [{ x := 0, y := 0, z := 0, q := 10 }]
     (by simp)⟩

/-- C2: in the labelled modes' normalisation block the scale is the maximum
(log-transformed) charge over the train partition only — it bounds every
train point and is attained by one, and the hypothesis constrains the train
partition alone, so test points never contribute — and afterwards both
partitions are divided by it point-for-point, with no clamping. -/
theorem normalization_scale_from_train
    (train test : List LabeledEvent) (mc : ℝ)
    (h : maxChargeOf train = some mc) :
    (∀ le ∈ train, ∀ p ∈ le.1, p.q ≤ mc) ∧
    (∃ le ∈ train, ∃ p ∈ le.1, p.q = mc) ∧
    normalizePartitions train test =
      .ok (train.map (fun le => (divCharges mc le.1, le.2)),
           test.map (fun le => (divCharges mc le.1, le.2)), mc) ∧
    (∀ e : Event, divCharges mc e
      = e.map fun p => { x := p.x, y := p.y, z := p.z, q := p.q / mc }) := by
  refine ⟨maxChargeOf_le h, maxChargeOf_mem h, ?_, fun e => rfl⟩
  unfold normalizePartitions
  rw [h]

/-- Witness for C2: the train maximum is 2, and the test point's charge 4 is
divided to 4 / 2 = 2 > 1 without clamping. -/
theorem normalization_scale_from_train_witness :
    normalizePartitions [([{ x := 0, y := 0, z := 0, q := 2 }], 0)]
        [([{ x := 0, y := 0, z := 0, q := 4 }], 1)]
      = .ok ([([{ x := 0, y := 0, z := 0, q := 2 / 2 }], 0)],
             [([{ x := 0, y := 0, z := 0, q := 4 / 2 }], 1)], 2) :=
  (normalization_scale_from_train [([{ x := 0, y := 0, z := 0, q := 2 }], 0)]
    [([{ x := 0, y := 0, z := 0, q := 4 }], 1)] 2 rfl).2.2.1

end ATTPC

namespace ATTPC

/-- C3: after the shuffles, the splitter takes the first `int(0.8 * N)`
events of the shuffled order as train and the rest as test: train has
exactly `⌊0.8 N⌋` events, test the remaining `N - ⌊0.8 N⌋`, and
`train ++ test` is a permutation of the original input collection. -/
theorem split_80_20
    (data : List LabeledEvent) (sh1 sh2 : List LabeledEvent → List LabeledEvent)
    (h1 : ∀ l, (sh1 l).Perm l) (h2 : ∀ l, (sh2 l).Perm l) :
    ((splitData (sh2 (sh1 data))).1).length = Nat.floor ((0.8 : ℚ) * data.length) ∧
    ((splitData (sh2 (sh1 data))).2).length
      = data.length - ((splitData (sh2 (sh1 data))).1).length ∧
    ((splitData (sh2 (sh1 data))).1 ++ (splitData (sh2 (sh1 data))).2).Perm data := by
  have hperm : (sh2 (sh1 data)).Perm data := (h2 (sh1 data)).trans (h1 data)
  have hlen : (sh2 (sh1 data)).length = data.length := hperm.length_eq
  have hle : partitionIdx data.length ≤ data.length := by unfold partitionIdx; omega
  have hfloor : Nat.floor ((0.8 : ℚ) * data.length) = partitionIdx data.length := by
    have h48 : (0.8 : ℚ) * data.length = ((4 * data.length : ℕ) : ℚ) / ((5 : ℕ) : ℚ) := by
      push_cast
      ring
    rw [h48, Nat.floor_div_nat, Nat.floor_natCast]
    rfl
  refine ⟨?_, ?_, ?_⟩
  · rw [hfloor]
    simp only [splitData, List.length_take, hlen]
    exact Nat.min_eq_left hle
  · simp only [splitData, List.length_take, List.length_drop, hlen]
    rw [Nat.min_eq_left hle]
  · simpa [splitData] using hperm

/-- Witness for C3 on a concrete two-event collection with identity
shuffles: train gets `⌊0.8 * 2⌋ = 1` event, test the other, and the
concatenation is a permutation of the input. -/
theorem split_80_20_witness :
    ((splitData (id (id [(([] : Event), (0 : ℤ)), ([], 1)]))).1).length
      = Nat.floor ((0.8 : ℚ) * ((2 : ℕ) : ℚ)) ∧
    ((splitData (id (id [(([] : Event), (0 : ℤ)), ([], 1)]))).2).length
      = 2 - ((splitData (id (id [(([] : Event), (0 : ℤ)), ([], 1)]))).1).length ∧
    ((splitData (id (id [(([] : Event), (0 : ℤ)), ([], 1)]))).1
      ++ (splitData (id (id [(([] : Event), (0 : ℤ)), ([], 1)]))).2).Perm
      [(([] : Event), (0 : ℤ)), ([], 1)] :=
  split_80_20 [(([] : Event), (0 : ℤ)), ([], 1)] id id
    (fun l => List.Perm.refl l) (fun l => List.Perm.refl l)

/-- C5 counterexample: with the uninitialised `np.empty` buffer containing
the point (1, 1, 1, 1), the single junk event built by `simulated` is not an
all-zero cloud, contradicting the claim's "all-zero coordinates and
charge". -/
theorem sim_junk_not_all_zero :
    simBuildData false [] [] id (fun _ => { x := 1, y := 1, z := 1, q := 1 }) 1
      = [([{ x := 1, y := 1, z := 1, q := 1 }], 2)] ∧
    ([({ x := 1, y := 1, z := 1, q := 1 } : Point)] : Event)
      ≠ [{ x := 0, y := 0, z := 0, q := 0 }] := by
  refine ⟨rfl, fun h => ?_⟩
  simp [Point.mk.injEq] at h

/-- C5 as amended: exactly `num_events` junk events are appended after the
proton and carbon events, each a single-point cloud holding the
(unspecified) contents of the uninitialised buffer, labelled 2; for
`num_events = 0` no junk is added and the dataset is exactly the proton
events followed by the carbon events. -/
theorem sim_junk_events (noise : Bool) (P C : List Event)
    (f : Event → Event) (j : ℕ → Point) (n : ℕ) :
    (simBuildData noise P C f j n).length = P.length + C.length + n ∧
    simBuildData noise P C f j 0
      = P.map (fun e => ((if noise then f e else e), (0 : ℤ)))
        ++ C.map (fun e => ((if noise then f e else e), (1 : ℤ))) ∧
    (simBuildData noise P C f j n).drop (P.length + C.length)
      = (List.range n).map fun i => ((if noise then f [j i] else [j i]), (2 : ℤ)) := by
  refine ⟨?_, ?_, ?_⟩
  · simp only [simBuildData, List.length_append, List.length_map, List.length_range]
  · simp [simBuildData]
  · unfold simBuildData
    exact List.drop_left' (by simp)

end ATTPC

namespace ATTPC

/-- A projection equal (as a Python value) to neither `'zy'` nor `'xy'`
makes every render-loop iteration raise `ValueError`. -/
theorem renderEvent_invalid {p : PyVal}
    (hzy : pyEq p (PyVal.str ("zy")) = false)
    (hxy : pyEq p (PyVal.str ("xy")) = false) (e : Event) :
    renderEvent p e = .error .invalidProjection := by
  simp [renderEvent, hzy, hxy]

/-- C9 counterexample: a direct `real_labeled` run with the invalid
projection `'ab'` on a single nonempty event aborts with the normalisation
error, not the configuration error: `int(0.8 * 1) = 0` leaves the train
partition empty, so the outer `.max()` of line 81 raises — after the log,
shuffle and split stages have run and before the projection value is ever
inspected. -/
theorem invalid_projection_not_checked_first :
    real_labeled (.str ("ab")) id id [([{ x := 0, y := 0, z := 0, q := 10 }], 0)]
      = .error .normalizationUndefined ∧
    PipelineError.normalizationUndefined ≠ PipelineError.invalidProjection :=
  ⟨rfl, by decide⟩

/-- C9 as amended: at the CLI boundary `click.Choice` rejects an invalid
projection before any processing; when `real_labeled` itself runs with an
invalid projection and the earlier stages succeed, the run aborts with the
configuration error before any rendering output is produced — but only
after the log, shuffle, split and normalisation stages have completed. -/
theorem invalid_projection_fatal :
    (∀ (type_ projection : String) (labeled noise : Bool) (numEvents : ℕ)
       (labeledData : List LabeledEvent) (unlabeledEvents : List Event)
       (protons carbons : List Event) (addNoise : Event → Event)
       (junkFill : ℕ → Point) (sh1 sh2 : List LabeledEvent → List LabeledEvent),
       projection ≠ ("xy") → projection ≠ ("zy") →
       mainCli type_ projection labeled noise numEvents labeledData
         unlabeledEvents protons carbons addNoise junkFill sh1 sh2
         = .error .usageError) ∧
    (∀ (projection : PyVal) (sh1 sh2 : List LabeledEvent → List LabeledEvent)
       (data logged : List LabeledEvent) (mc : ℝ),
       pyEq projection (PyVal.str ("xy")) = false →
       pyEq projection (PyVal.str ("zy")) = false →
       logData data = .ok logged →
       maxChargeOf (splitData (sh2 (sh1 logged))).1 = some mc →
       real_labeled projection sh1 sh2 data = .error .invalidProjection) := by
  constructor
  · intro type_ projection labeled noise numEvents labeledData unlabeledEvents
      protons carbons addNoise junkFill sh1 sh2 hxy hzy
    have hp : ¬(projection = ("xy") ∨ projection = ("zy")) := by
      rintro (h | h)
      · exact hxy h
      · exact hzy h
    simp [mainCli, hp]
  · intro projection sh1 sh2 data logged mc hxy hzy hlog hmc
    obtain ⟨le, rest, htrain⟩ :
        ∃ le rest, (splitData (sh2 (sh1 logged))).1 = le :: rest := by
      cases h : (splitData (sh2 (sh1 logged))).1 with
      | nil =>
          rw [h, maxChargeOf_nil] at hmc
          exact absurd hmc (by simp)
      | cons le rest => exact ⟨le, rest, rfl⟩
    have hnorm : normalizePartitions (splitData (sh2 (sh1 logged))).1
        (splitData (sh2 (sh1 logged))).2
        = .ok ((splitData (sh2 (sh1 logged))).1.map
                 (fun le => (divCharges mc le.1, le.2)),
               (splitData (sh2 (sh1 logged))).2.map
                 (fun le => (divCharges mc le.1, le.2)), mc) := by
      unfold normalizePartitions
      rw [hmc]
    simp only [real_labeled, hlog]
    rw [hnorm, htrain]
    simp only [List.map_cons, List.mapM_cons, renderEvent_invalid hzy hxy]
    rfl

/-- Witness for the amended C9: a concrete two-event run where the log,
shuffle, split and normalisation stages all succeed and the invalid
projection `'ab'` then aborts the render stage. -/
theorem invalid_projection_fatal_witness :
    real_labeled (.str ("ab")) id id
      [([{ x := 0, y := 0, z := 0, q := 10 }], 0),
       ([{ x := 0, y := 0, z := 0, q := 100 }], 1)]
      = .error .invalidProjection :=
  invalid_projection_fatal.2 (.str ("ab")) id id
    [([{ x := 0, y := 0, z := 0, q := 10 }], 0),
     ([{ x := 0, y := 0, z := 0, q := 100 }], 1)]
    [([{ x := 0, y := 0, z := 0, q := _l 10 }], 0),
     ([{ x := 0, y := 0, z := 0, q := _l 100 }], 1)]
    (_l 10) rfl rfl rfl rfl

/-- C10 counterexample: on a run containing zero-point events the pipeline
aborts at the log stage with the vectorize size-0 error — not with the
normalisation error the undefined per-event maximum would produce, because
that `.max()` at line 81 is never reached for a zero-point event. -/
theorem empty_event_fails_at_log_not_normalization :
    real_labeled (.str ("zy")) id id [(([] : Event), (0 : ℤ)), ([], 1)]
      = .error .logUndefined ∧
    PipelineError.logUndefined ≠ PipelineError.normalizationUndefined :=
  ⟨rfl, by decide⟩

/-- C10 as amended: the normalisation stage does take a per-event charge
maximum, which is undefined on a zero-point event (and on an empty train
partition); but a zero-point event anywhere in the collection already kills
every pipeline earlier, at the log-transform stage — `np.vectorize` with
`otypes` unset raises on a size-0 input — before the shuffle, split or
normalisation run, so the run still fails before any rendering, with the
log-stage error rather than the normalisation error, even though the render
step itself accepts a zero-point event and produces a blank (empty-array)
plot. -/
theorem empty_event_aborts_pipeline :
    eventMax [] = none ∧
    (∀ train test : List LabeledEvent, (∃ le ∈ train, le.1 = []) →
      normalizePartitions train test = .error .normalizationUndefined) ∧
    (∀ (projection : PyVal) (sh1 sh2 : List LabeledEvent → List LabeledEvent)
       (data : List LabeledEvent), (∃ le ∈ data, le.1 = []) →
       real_labeled projection sh1 sh2 data = .error .logUndefined) ∧
    (∀ (projection : PyVal) (sh1 sh2 : List LabeledEvent → List LabeledEvent)
       (events : List Event), (∃ e ∈ events, e = []) →
       real_unlabeled projection sh1 sh2 events = .error .logUndefined) ∧
    (∀ (projection : PyVal) (noise : Bool) (numEvents : ℕ)
       (protons carbons : List Event) (addNoise : Event → Event)
       (junkFill : ℕ → Point) (sh : List LabeledEvent → List LabeledEvent),
       (∃ le ∈ simBuildData noise protons carbons addNoise junkFill numEvents,
         le.1 = []) →
       simulated projection noise numEvents protons carbons addNoise junkFill sh
         = .error .logUndefined) ∧
    renderEvent (.str ("zy")) []
      = .ok { hs := [], vs := [], cs := [], xlim := (0, 1250), ylim := (-275, 275) } ∧
    renderEvent (.str ("xy")) []
      = .ok { hs := [], vs := [], cs := [], xlim := (-275, 275), ylim := (-275, 275) } := by
  refine ⟨rfl, ?_, ?_, ?_, ?_, rfl, rfl⟩
  · intro train test hemp
    unfold normalizePartitions
    rw [maxChargeOf_none hemp]
  · intro projection sh1 sh2 data hemp
    simp only [real_labeled, logData_error hemp]
  · intro projection sh1 sh2 events hemp
    have h2 : ∃ le ∈ events.map fun e => (e, (-1 : ℤ)), le.1 = [] := by
      obtain ⟨e, he, hemp2⟩ := hemp
      exact ⟨(e, -1), List.mem_map_of_mem _ he, hemp2⟩
    simp only [real_unlabeled, logData_error h2]
  · intro projection noise numEvents protons carbons addNoise junkFill sh hemp
    simp only [simulated, logData_error hemp]

/-- Witness for the amended C10: a run with one zero-point and one nonempty
event aborts at the log stage. -/
theorem empty_event_aborts_pipeline_witness :
    real_labeled (.str ("zy")) id id
      [(([] : Event), (0 : ℤ)), ([{ x := 0, y := 0, z := 0, q := 10 }], 1)]
      = .error .logUndefined :=
  empty_event_aborts_pipeline.2.2.1 (.str ("zy")) id id
    [(([] : Event), (0 : ℤ)), ([{ x := 0, y := 0, z := 0, q := 10 }], 1)]
    ⟨(([] : Event), (0 : ℤ)), List.Mem.head _, rfl⟩

end ATTPC

namespace ATTPC

/-- C6 counterexample: a labelled dataset whose targets are all zero loads
(with `binary=True`) to the label set {0}, not exactly {0, 1}. -/
theorem binary_labels_not_exactly_01 :
    load_image_h5
      (.labeledFile
        { train_features := [], train_targets := [0], test_features := [],
          test_targets := [0], max_charge := 0 })
      false false false true
      = some (.dataset
        { train_features := [], train_targets := .ints [0], test_features := [],
          test_targets := .ints [0], max_charge := none }) ∧
    ([0] ++ [0] : List ℕ).toFinset ≠ ({0, 1} : Finset ℕ) :=
  ⟨by decide, by decide⟩

/-- C6 as amended: with `binary=True` every label 0 stays 0 and every
nonzero label becomes 1 in both train and test targets; the resulting labels
all lie in {0, 1}, and the label set is exactly {0, 1} whenever both a zero
and a nonzero label occur. -/
theorem binary_collapse_contract (d : H5Labeled) (flatten maxCharge : Bool) :
    load_image_h5 (.labeledFile d) false flatten maxCharge true
      = some (.dataset
        { train_features := d.train_features,
          train_targets := .ints (binaryCollapse d.train_targets),
          test_features := d.test_features,
          test_targets := .ints (binaryCollapse d.test_targets),
          max_charge := if maxCharge then some d.max_charge else none }) ∧
    (∀ ts : List ℕ, binaryCollapse ts = ts.map fun t => if t = 0 then 0 else 1) ∧
    (∀ ts : List ℕ, (binaryCollapse ts).toFinset ⊆ ({0, 1} : Finset ℕ)) ∧
    (∀ ts : List ℕ, 0 ∈ ts → (∃ t ∈ ts, t ≠ 0) →
      (binaryCollapse ts).toFinset = ({0, 1} : Finset ℕ)) := by
  have hsub : ∀ ts : List ℕ, (binaryCollapse ts).toFinset ⊆ ({0, 1} : Finset ℕ) := by
    intro ts x hx
    simp only [List.mem_toFinset, binaryCollapse, List.mem_map] at hx
    obtain ⟨t, ht, rfl⟩ := hx
    by_cases h : t = 0 <;> simp [h]
  refine ⟨rfl, ?_, hsub, ?_⟩
  · intro ts
    unfold binaryCollapse
    refine List.map_congr_left fun a _ => ?_
    by_cases h : a = 0 <;> simp [h]
  · intro ts h0 hne
    refine Finset.Subset.antisymm (hsub ts) ?_
    intro x hx
    simp only [Finset.mem_insert, Finset.mem_singleton] at hx
    simp only [List.mem_toFinset, binaryCollapse, List.mem_map]
    rcases hx with rfl | rfl
    · exact ⟨0, h0, rfl⟩
    · obtain ⟨t, ht, htne⟩ := hne
      exact ⟨t, ht, by simp [htne]⟩

/-- Witness for the amended C6 on a concrete three-class dataset: labels
collapse to {0, 1} exactly. -/
theorem binary_collapse_contract_witness :
    load_image_h5
      (.labeledFile
        { train_features := [], train_targets := [0, 2, 1], test_features := [],
          test_targets := [3], max_charge := 0 })
      false false false true
      = some (.dataset
        { train_features := [], train_targets := .ints (binaryCollapse [0, 2, 1]),
          test_features := [], test_targets := .ints (binaryCollapse [3]),
          max_charge := if false then some 0 else none }) ∧
    (binaryCollapse [0, 2, 1]).toFinset = ({0, 1} : Finset ℕ) :=
  ⟨(binary_collapse_contract
      { train_features := [], train_targets := [0, 2, 1], test_features := [],
        test_targets := [3], max_charge := 0 } false false).1,
   (binary_collapse_contract
      { train_features := [], train_targets := [0, 2, 1], test_features := [],
        test_targets := [3], max_charge := 0 } false false).2.2.2 [0, 2, 1]
     (by decide) ⟨2, by decide, by decide⟩⟩

/-- C7 counterexample: train targets [0, 2] contain two distinct labels, so
the one-hot width is 2, and the label 2 cannot receive a 1 at index 2 in a
length-2 row — `to_categorical` raises and the loader produces nothing. -/
theorem categorical_gap_labels_fail :
    load_image_h5
      (.labeledFile
        { train_features := [], train_targets := [0, 2], test_features := [],
          test_targets := [0], max_charge := 0 })
      true false false false = none := by decide

/-- C7 as amended: with `categorical=True` (and `binary=False`), provided
every train and test label is smaller than the number of distinct train
labels, each integer label i becomes a one-hot row of that length with a 1
at index i and 0 elsewhere. -/
theorem categorical_onehot_contract (d : H5Labeled) (flatten maxCharge : Bool)
    (hTr : ∀ t ∈ d.train_targets, t < d.train_targets.dedup.length)
    (hTe : ∀ t ∈ d.test_targets, t < d.train_targets.dedup.length) :
    load_image_h5 (.labeledFile d) true flatten maxCharge false
      = some (.dataset
        { train_features := d.train_features,
          train_targets := .onehot (d.train_targets.map fun t =>
            (List.range d.train_targets.dedup.length).map
              fun j => if j = t then 1 else 0),
          test_features := d.test_features,
          test_targets := .onehot (d.test_targets.map fun t =>
            (List.range d.train_targets.dedup.length).map
              fun j => if j = t then 1 else 0),
          max_charge := if maxCharge then some d.max_charge else none }) ∧
    (∀ t n : ℕ, ((List.range n).map fun j => if j = t then 1 else 0).length = n) ∧
    (∀ t n i : ℕ, i < n →
      (((List.range n).map fun j => if j = t then 1 else 0).getD i 0)
        = if i = t then 1 else 0) := by
  refine ⟨?_, ?_, ?_⟩
  · have htr : to_categorical d.train_targets d.train_targets.dedup.length
        = some (d.train_targets.map fun t =>
            (List.range d.train_targets.dedup.length).map
              fun j => if j = t then 1 else 0) := by
      unfold to_categorical
      rw [if_pos (List.all_eq_true.mpr fun t ht => decide_eq_true (hTr t ht))]
    have hte : to_categorical d.test_targets d.train_targets.dedup.length
        = some (d.test_targets.map fun t =>
            (List.range d.train_targets.dedup.length).map
              fun j => if j = t then 1 else 0) := by
      unfold to_categorical
      rw [if_pos (List.all_eq_true.mpr fun t ht => decide_eq_true (hTe t ht))]
    simp [load_image_h5, htr, hte]
  · intro t n
    simp
  · intro t n i hi
    simp [List.getElem?_range hi]

/-- Witness for the amended C7: labels [1, 0] (two distinct classes) one-hot
encode to rows of length 2. -/
theorem categorical_onehot_contract_witness :
    load_image_h5
      (.labeledFile
        { train_features := [], train_targets := [1, 0], test_features := [],
          test_targets := [0, 1], max_charge := 0 })
      true false false false
      = some (.dataset
        { train_features := [], train_targets := .onehot [[0, 1], [1, 0]],
          test_features := [], test_targets := .onehot [[1, 0], [0, 1]],
          max_charge := none }) :=
  (categorical_onehot_contract
    { train_features := [], train_targets := [1, 0], test_features := [],
      test_targets := [0, 1], max_charge := 0 } false false
    (by decide) (by decide)).1

end ATTPC

namespace ATTPC

/-- C8: for a probability vector over the 3 fixed class names,
`decode_predictions` pairs each probability with its class name, sorts the
pairs descending by probability (Python's stable sort with `reverse=True`),
and returns the first `min top 3` of them; in particular on
[0.7, 0.2, 0.1] with `top = 2` it returns [(proton, 0.7), (carbon, 0.2)]. -/
theorem decode_predictions_spec :
    (∀ (preds : List ℚ) (top : ℕ), preds.length = 3 →
      ∃ l s : List (String × ℚ), decode_predictions preds top = some l ∧
        s.Perm (preds.enum.map fun ip => (CLASS_NAMES.getD ip.1 (""), ip.2)) ∧
        s.Pairwise (fun a b => b.2 ≤ a.2) ∧
        l = s.take (min top 3) ∧ l.length = min top 3) ∧
    decode_predictions [7/10, 2/10, 1/10] 2
      = some [(("proton" : String), 7/10), ("carbon", 2/10)] := by
  constructor
  · intro preds top hlen
    haveI : IsTotal (String × ℚ) (fun a b => b.2 ≤ a.2) := ⟨fun a b => le_total b.2 a.2⟩
    haveI : IsTrans (String × ℚ) (fun a b => b.2 ≤ a.2) :=
      ⟨fun _ _ _ h1 h2 => le_trans h2 h1⟩
    have hlen2 : (preds.enum.map fun ip => (CLASS_NAMES.getD ip.1 (""), ip.2)).length = 3 := by
      simp [hlen]
    have hsome : decode_predictions preds top
        = some (((preds.enum.map fun ip => (CLASS_NAMES.getD ip.1 (""), ip.2)).insertionSort
            (fun a b => b.2 ≤ a.2)).take
            (min top (preds.enum.map fun ip => (CLASS_NAMES.getD ip.1 (""), ip.2)).length)) := by
      unfold decode_predictions
      rw [if_pos (by rw [hlen]; decide)]
    refine ⟨_, (preds.enum.map fun ip => (CLASS_NAMES.getD ip.1 (""), ip.2)).insertionSort
        (fun a b => b.2 ≤ a.2), hsome, List.perm_insertionSort _ _, ?_, ?_, ?_⟩
    · exact List.sorted_insertionSort _ _
    · rw [hlen2]
    · rw [List.length_take, hlen2, List.length_insertionSort, hlen2]
      omega
  · norm_num [decode_predictions, CLASS_NAMES, List.enum, List.enumFrom,
      List.insertionSort, List.orderedInsert]

/-- Witness for C8 at the vector [0.7, 0.2, 0.1] with top = 2. -/
theorem decode_predictions_spec_witness :
    ∃ l s : List (String × ℚ),
      decode_predictions [7/10, 2/10, 1/10] 2 = some l ∧
      s.Perm (([(7 : ℚ)/10, 2/10, 1/10].enum.map
        fun ip => (CLASS_NAMES.getD ip.1 (""), ip.2))) ∧
      s.Pairwise (fun a b => b.2 ≤ a.2) ∧
      l = s.take (min 2 3) ∧ l.length = min 2 3 :=
  decode_predictions_spec.1 [7/10, 2/10, 1/10] 2 rfl

end ATTPC
